import Mathlib

/-!
Shallow embedding of the huginn WebSocket hub (huginn.go).

The hub state is modelled explicitly: the client registry (a string-keyed
map, embedded as an association list with map semantics), the optional
MongoDB mirror (a list of metadata records plus a disconnect counter), and
the set of closed connection handles. Connections are identified by natural
numbers. Opaque JSON payloads are modelled by a small value type. Every
operation of huginn.go becomes a pure state transformer returning the new
state together with a trace recording the observable effects the claims
talk about: serialization calls, write attempts with their deadline,
delivery attempts, and attempted mirror operations.
-/

/-- Opaque structured payload values (interface values in the source). -/
inductive JValue where
  | null : JValue
  | bool : Bool → JValue
  | num : Int → JValue
  | str : String → JValue
deriving DecidableEq, Repr

/-- Metadata stores client-specific data (struct Metadata: uuid, data map). -/
structure Metadata where
  uuid : String
  data : List (String × JValue)
deriving DecidableEq, Repr

/-- Client represents an individual WebSocket connection: the connection
handle (a numeric identifier here), the UUID and the metadata. -/
structure Client where
  conn : Nat
  uuid : String
  metadata : Metadata
deriving DecidableEq, Repr

/-- Message defines the structure for WebSocket events (event plus data). -/
structure Message where
  event : String
  data : JValue
deriving DecidableEq, Repr

/-- State of the optional MongoDB mirror: the clients collection and the
number of times Disconnect has been called on the underlying client. -/
structure MirrorState where
  records : List Metadata
  disconnects : Nat
deriving DecidableEq, Repr

/-- Hub state: the client registry (sync.Map, embedded as an association
list with unique-key map semantics), the optional mirror, and the set of
connection handles on which Close has been called. -/
structure HubState where
  clients : List (String × Client)
  mirror : Option MirrorState
  closed : List Nat
deriving DecidableEq, Repr

/-- A mirror operation attempted against the MongoDB collection. -/
inductive MirrorOp where
  | insertOne : Metadata → MirrorOp
  | deleteOne : String → MirrorOp
  | setField : String → String → JValue → MirrorOp
  | unsetField : String → String → MirrorOp
deriving DecidableEq, Repr

/-- Observable effects of an operation: number of json.Marshal calls,
write attempts as pairs of connection handle and write deadline in
seconds, client ids that received a delivery attempt, and mirror
operations attempted. -/
structure Trace where
  marshals : Nat := 0
  writes : List (Nat × Nat) := []
  attempts : List String := []
  mirrorOps : List MirrorOp := []
deriving DecidableEq, Repr

def Trace.empty : Trace := {}

def Trace.append (a b : Trace) : Trace :=
  ⟨a.marshals + b.marshals, a.writes ++ b.writes,
   a.attempts ++ b.attempts, a.mirrorOps ++ b.mirrorOps⟩

/-- Map load: value of the first entry with the given key. -/
def alLoad {α : Type} (m : List (String × α)) (k : String) : Option α :=
  (m.find? (fun p => p.1 = k)).map (·.2)

/-- Map store with overwrite (sync.Map.Store / Go map assignment). -/
def alStore {α : Type} (m : List (String × α)) (k : String) (v : α) :
    List (String × α) :=
  (k, v) :: m.filter (fun p => ¬ p.1 = k)

/-- Map delete (sync.Map delete semantics / Go delete builtin). -/
def alDelete {α : Type} (m : List (String × α)) (k : String) :
    List (String × α) :=
  m.filter (fun p => ¬ p.1 = k)

/-- Update the first list element satisfying the predicate in place,
leaving the rest of the list untouched. -/
def updateFirst {α : Type} (p : α → Bool) (f : α → α) : List α → List α
  | [] => []
  | x :: xs => if p x then f x :: xs else x :: updateFirst p f xs

/-- Record Close being called on a connection handle (idempotent). -/
def closeConn (s : HubState) (c : Nat) : HubState :=
  if c ∈ s.closed then s else { s with closed := c :: s.closed }

/-- DB.DeleteOne with filter uuid = clientID: removes the first matching
record when the mirror is configured, no-op otherwise. -/
def mirrorDeleteOne (s : HubState) (clientID : String) : HubState × Trace :=
  match s.mirror with
  | some m =>
      let m1 := { m with records := m.records.eraseP (fun r => r.uuid = clientID) }
      ({ s with mirror := some m1 }, { mirrorOps := [MirrorOp.deleteOne clientID] })
  | none => (s, Trace.empty)

/-- AddClient: store a fresh client under the generated clientID, then
insert its metadata record into the mirror when configured. The generated
UUID and the connection handle are inputs of the model. -/
def addClient (s : HubState) (conn : Nat) (clientID : String) : HubState × Trace :=
  let metadata : Metadata := ⟨clientID, []⟩
  let client : Client := ⟨conn, clientID, metadata⟩
  let s1 := { s with clients := alStore s.clients clientID client }
  match s1.mirror with
  | some m =>
      ({ s1 with mirror := some { m with records := m.records ++ [metadata] } },
       { mirrorOps := [MirrorOp.insertOne metadata] })
  | none => (s1, Trace.empty)

/-- RemoveClient: LoadAndDelete the registry entry and close its
connection when present, then DeleteOne against the mirror when
configured. -/
def removeClient (s : HubState) (clientID : String) : HubState × Trace :=
  let s1 :=
    match alLoad s.clients clientID with
    | some c => closeConn { s with clients := alDelete s.clients clientID } c.conn
    | none => s
  mirrorDeleteOne s1 clientID

/-- UpdateMetadata: when the client is registered, set the key in its
in-memory metadata and attempt a single-field mirror update; a complete
no-op otherwise. -/
def updateMetadata (s : HubState) (clientID key : String) (v : JValue) :
    HubState × Trace :=
  match alLoad s.clients clientID with
  | some c =>
      let c1 := { c with metadata := { c.metadata with data := alStore c.metadata.data key v } }
      let cs := updateFirst (fun e => e.1 = clientID) (fun e => (e.1, c1)) s.clients
      let s1 := { s with clients := cs }
      match s1.mirror with
      | some m =>
          let recs := updateFirst (fun r => r.uuid = clientID)
            (fun r => { r with data := alStore r.data key v }) m.records
          ({ s1 with mirror := some { m with records := recs } },
           { mirrorOps := [MirrorOp.setField clientID key v] })
      | none => (s1, Trace.empty)
  | none => (s, Trace.empty)

/-- RemoveMetadata: when the client is registered, delete the key from its
in-memory metadata and attempt a single-field mirror unset; a complete
no-op otherwise. -/
def removeMetadata (s : HubState) (clientID key : String) : HubState × Trace :=
  match alLoad s.clients clientID with
  | some c =>
      let c1 := { c with metadata := { c.metadata with data := alDelete c.metadata.data key } }
      let cs := updateFirst (fun e => e.1 = clientID) (fun e => (e.1, c1)) s.clients
      let s1 := { s with clients := cs }
      match s1.mirror with
      | some m =>
          let recs := updateFirst (fun r => r.uuid = clientID)
            (fun r => { r with data := alDelete r.data key }) m.records
          ({ s1 with mirror := some { m with records := recs } },
           { mirrorOps := [MirrorOp.unsetField clientID key] })
      | none => (s1, Trace.empty)
  | none => (s, Trace.empty)

/-- sendMessage: load the client; when present, marshal the message, set a
10 second write deadline and attempt the write; on write failure (given by
the failure oracle on the connection handle) remove the client. -/
def sendMessage (s : HubState) (clientID : String) (_msg : Message)
    (wfail : Nat → Bool) : HubState × Trace :=
  match alLoad s.clients clientID with
  | none => (s, Trace.empty)
  | some c =>
      let t0 : Trace := { marshals := 1, writes := [(c.conn, 10)], attempts := [clientID] }
      if wfail c.conn then
        let r := removeClient s clientID
        (r.1, t0.append r.2)
      else
        (s, t0)

def EmitAll : Nat := 0
def EmitOnly : Nat := 1
def EmitExcept : Nat := 2

/-- One Range pass of Emit over a registry snapshot: for each visited
entry, the selector returns the clientID to send to (none skips the
entry); traces are concatenated in visit order. -/
def rangeEmit (s : HubState) (entries : List (String × Client)) (msg : Message)
    (send : String × Client → Option String) (wfail : Nat → Bool) :
    HubState × Trace :=
  match entries with
  | [] => (s, Trace.empty)
  | e :: rest =>
      match send e with
      | none => rangeEmit s rest msg send wfail
      | some id =>
          let r := sendMessage s id msg wfail
          let r' := rangeEmit r.1 rest msg send wfail
          (r'.1, r.2.append r'.2)

/-- Emit: dispatch on the mode. ALL sends to each visited client under its
stored UUID; ONLY sends to visited keys contained in the target list;
EXCEPT sends to visited keys not contained in it. The Range snapshot is
the registry at call start. -/
def emit (s : HubState) (msg : Message) (mode : Nat) (clients : List String)
    (wfail : Nat → Bool) : HubState × Trace :=
  if mode = EmitAll then
    rangeEmit s s.clients msg (fun e => some e.2.uuid) wfail
  else if mode = EmitOnly then
    rangeEmit s s.clients msg
      (fun e => if e.1 ∈ clients then some e.1 else none) wfail
  else if mode = EmitExcept then
    rangeEmit s s.clients msg
      (fun e => if e.1 ∈ clients then none else some e.1) wfail
  else (s, Trace.empty)

/-- Shutdown: Range over the registry closing every connection (entries
are not removed), then call Disconnect on the mirror client when
configured. -/
def shutdown (s : HubState) : HubState × Trace :=
  let s1 := s.clients.foldl (fun acc e => closeConn acc e.2.conn) s
  match s1.mirror with
  | some m =>
      ({ s1 with mirror := some { m with disconnects := m.disconnects + 1 } },
       Trace.empty)
  | none => (s1, Trace.empty)

/-- Result of SearchClient: a live client, a returned error, or a runtime
panic from calling a method on the nil collection pointer. -/
inductive SearchResult where
  | found : Client → SearchResult
  | err : String → SearchResult
  | nilPanic : SearchResult
deriving DecidableEq, Repr

/-- SearchClient: the source calls h.DB.FindOne unconditionally, so with
no mirror configured (DB is nil) the call dereferences the nil collection
and panics. Otherwise: find the first record whose data at the key equals
the value, then resolve its uuid against the live registry. -/
def searchClient (s : HubState) (key : String) (v : JValue) : SearchResult :=
  match s.mirror with
  | none => SearchResult.nilPanic
  | some m =>
      match m.records.find? (fun r => decide (alLoad r.data key = some v)) with
      | none => SearchResult.err "mongo: no documents in result"
      | some r =>
          match alLoad s.clients r.uuid with
          | some c => SearchResult.found c
          | none => SearchResult.err "client not found in active connections"

/-- Outcome of routing one decoded inbound message: either the handler
bound to the event name was invoked (handlers are identified by numeric
tags), or no handler was bound and an error reply was written back to the
originating session. -/
inductive DispatchResult where
  | invoked : Nat → DispatchResult
  | errorReply : Message → DispatchResult
deriving DecidableEq, Repr

/-- The dispatch step of the Server read loop: look up the event in the
handler table; if bound invoke it, otherwise write back an error message
embedding the unmatched event name. -/
def dispatchMessage (events : List (String × Nat)) (msg : Message) :
    DispatchResult :=
  match events.find? (fun e => e.1 = msg.event) with
  | some e => DispatchResult.invoked e.2
  | none =>
      DispatchResult.errorReply
        ⟨"error", JValue.str ("Event not found: " ++ msg.event)⟩

/-- One inbound frame on a session: a successfully decoded message, or a
frame on which ReadJSON fails (malformed frame or closed transport). -/
inductive Frame where
  | msg : Message → Frame
  | badFrame : Frame
deriving DecidableEq, Repr

/-- The Server read loop over a sequence of inbound frames: a decode
failure terminates the loop; a decoded message is dispatched and the loop
continues with the remaining frames. -/
def readLoop (events : List (String × Nat)) : List Frame → List DispatchResult
  | [] => []
  | Frame.badFrame :: _ => []
  | Frame.msg m :: rest => dispatchMessage events m :: readLoop events rest

/-- A wire message as decoded by ReadJSON: both members are optional in
the JSON object. -/
structure WireMsg where
  event : Option String
  data : Option JValue
deriving DecidableEq, Repr

/-- ReadJSON decoding into the Message struct: absent members decode to
the zero values, the empty string and the nil payload. -/
def decodeMessage (w : WireMsg) : Message :=
  ⟨w.event.getD "", w.data.getD JValue.null⟩

/-- Registry-key consistency: every registry entry stores a client whose
uuid and metadata uuid equal its key. -/
def keysInv (s : HubState) : Prop :=
  ∀ e ∈ s.clients, e.2.uuid = e.1 ∧ e.2.metadata.uuid = e.1

instance keysInvDecidable (s : HubState) : Decidable (keysInv s) :=
  List.decidableBAll _ s.clients

/-- The mirror (when configured) holds at most one record for the given
identity; AddClient only ever inserts records under fresh UUIDs, so this
holds in every reachable state. -/
def mirrorUuidUnique (s : HubState) (clientID : String) : Prop :=
  match s.mirror with
  | none => True
  | some m => m.records.countP (fun r => r.uuid = clientID) ≤ 1

instance mirrorUuidUniqueDecidable (s : HubState) (clientID : String) :
    Decidable (mirrorUuidUnique s clientID) := by
  unfold mirrorUuidUnique
  cases s.mirror <;> infer_instance

/-- A concrete hub with one registered client and a configured mirror. -/
def demoOne : HubState :=
  ⟨[("a", ⟨1, "a", ⟨"a", []⟩⟩)], some ⟨[⟨"a", []⟩], 0⟩, []⟩

/-- A concrete hub with two registered clients and a configured mirror. -/
def demoTwo : HubState :=
  ⟨[("a", ⟨1, "a", ⟨"a", []⟩⟩), ("b", ⟨2, "b", ⟨"b", []⟩⟩)],
   some ⟨[⟨"a", []⟩, ⟨"b", []⟩], 0⟩, []⟩

/-- A concrete in-memory-only hub (no mirror configured). -/
def demoMemOnly : HubState :=
  ⟨[("a", ⟨1, "a", ⟨"a", []⟩⟩)], none, []⟩

/-- Well-formedness of an operation trace: one serialization per delivery
attempt, and every write attempt carries the 10 second deadline. -/
def traceOK (t : Trace) : Prop :=
  t.marshals = t.attempts.length ∧ t.writes.all (fun w => w.2 == 10) = true

/-! ## Helper lemmas about the map embedding -/

theorem alLoad_alDelete {α : Type} (l : List (String × α)) (k : String) :
    alLoad (alDelete l k) k = none := by
  unfold alLoad alDelete
  have h : List.find? (fun p => decide (p.1 = k))
      (List.filter (fun p => decide ¬(p.1 = k)) l) = none := by
    rw [List.find?_eq_none]
    intro x hx
    have hx2 := (List.mem_filter.mp hx).2
    simpa using hx2
  rw [h]
  rfl

theorem alLoad_none_delete_eq {α : Type} {l : List (String × α)} {k : String}
    (h : alLoad l k = none) : alDelete l k = l := by
  unfold alDelete
  rw [List.filter_eq_self]
  intro a ha
  unfold alLoad at h
  rw [Option.map_eq_none'] at h
  rw [List.find?_eq_none] at h
  have := h a ha
  simpa using this

theorem alLoad_isSome_iff {α : Type} {l : List (String × α)} {k : String} :
    (alLoad l k).isSome ↔ k ∈ l.map Prod.fst := by
  unfold alLoad
  rw [Option.isSome_map']
  rw [List.find?_isSome]
  constructor
  · rintro ⟨x, hx, hp⟩
    exact List.mem_map.mpr ⟨x, hx, by simpa using hp⟩
  · rintro hk
    rcases List.mem_map.mp hk with ⟨x, hx, hxe⟩
    exact ⟨x, hx, by simpa using hxe⟩

theorem alLoad_of_mem_nodup {α : Type} {l : List (String × α)} {e : String × α}
    (hnd : (l.map Prod.fst).Nodup) (h : e ∈ l) : alLoad l e.1 = some e.2 := by
  induction l with
  | nil => cases h
  | cons x xs ih =>
      rcases List.mem_cons.mp h with rfl | hmem
      · simp [alLoad, List.find?_cons]
      · rw [List.map_cons] at hnd
        have hnd2 := List.nodup_cons.mp hnd
        have hx : ¬ x.1 = e.1 := by
          intro hk
          exact hnd2.1 (hk ▸ List.mem_map.mpr ⟨e, hmem, rfl⟩)
        have := ih hnd2.2 hmem
        simpa [alLoad, List.find?_cons, hx] using this

theorem alLoad_some_exists {α : Type} {l : List (String × α)} {k : String}
    {c : α} (h : alLoad l k = some c) : ∃ e ∈ l, e.1 = k ∧ e.2 = c := by
  unfold alLoad at h
  rw [Option.map_eq_some'] at h
  rcases h with ⟨a, ha, hc⟩
  refine ⟨a, List.mem_of_find?_eq_some ha, ?_, hc⟩
  have := List.find?_some ha
  simpa using this

theorem eraseP_no_match {α : Type} {p : α → Bool} :
    ∀ {l : List α}, l.countP p ≤ 1 → ∀ x ∈ l.eraseP p, p x = false := by
  intro l
  induction l with
  | nil => intro _ x hx; cases hx
  | cons a l ih =>
      intro h x hx
      by_cases hp : p a
      · rw [List.eraseP_cons_of_pos hp] at hx
        rw [List.countP_cons_of_pos p l hp] at h
        have h0 : l.countP p = 0 := by omega
        have := (List.countP_eq_zero.mp h0) x hx
        simpa using this
      · rw [List.eraseP_cons_of_neg hp] at hx
        rw [List.countP_cons_of_neg p l hp] at h
        rcases List.mem_cons.mp hx with rfl | hmem
        · simpa using hp
        · exact ih h x hmem

theorem updateFirst_mem {α : Type} {p : α → Bool} {f : α → α} :
    ∀ {l : List α} {x : α}, x ∈ updateFirst p f l →
      x ∈ l ∨ ∃ y ∈ l, p y = true ∧ x = f y := by
  intro l
  induction l with
  | nil => intro x hx; cases hx
  | cons a l ih =>
      intro x hx
      by_cases hp : p a
      · rw [updateFirst, if_pos hp] at hx
        rcases List.mem_cons.mp hx with rfl | hmem
        · exact Or.inr ⟨a, List.mem_cons_self a l, hp, rfl⟩
        · exact Or.inl (List.mem_cons_of_mem a hmem)
      · rw [updateFirst, if_neg hp] at hx
        rcases List.mem_cons.mp hx with rfl | hmem
        · exact Or.inl (List.mem_cons_self x l)
        · rcases ih hmem with h | ⟨y, hy, hpy, hxy⟩
          · exact Or.inl (List.mem_cons_of_mem a h)
          · exact Or.inr ⟨y, List.mem_cons_of_mem a hy, hpy, hxy⟩

/-! ## Trace well-formedness -/

theorem traceOK_empty : traceOK Trace.empty := by
  constructor <;> rfl

theorem traceOK_append {a b : Trace} (ha : traceOK a) (hb : traceOK b) :
    traceOK (a.append b) := by
  constructor
  · show a.marshals + b.marshals = (a.attempts ++ b.attempts).length
    rw [List.length_append, ha.1, hb.1]
  · show (a.writes ++ b.writes).all (fun w => w.2 == 10) = true
    rw [List.all_append, ha.2, hb.2]
    rfl

theorem mirrorDeleteOne_traceOK (s : HubState) (clientID : String) :
    traceOK (mirrorDeleteOne s clientID).2 := by
  unfold mirrorDeleteOne
  cases s.mirror <;> exact ⟨rfl, rfl⟩

theorem removeClient_traceOK (s : HubState) (clientID : String) :
    traceOK (removeClient s clientID).2 := by
  unfold removeClient
  exact mirrorDeleteOne_traceOK _ _

theorem sendMessage_traceOK (s : HubState) (clientID : String) (msg : Message)
    (wfail : Nat → Bool) : traceOK (sendMessage s clientID msg wfail).2 := by
  unfold sendMessage
  cases h : alLoad s.clients clientID with
  | none => exact traceOK_empty
  | some c =>
      by_cases hw : wfail c.conn
      · simp only [hw, if_true]
        exact traceOK_append ⟨rfl, rfl⟩ (removeClient_traceOK s clientID)
      · simp only [hw, if_false]
        exact ⟨rfl, rfl⟩

theorem rangeEmit_traceOK (msg : Message) (send : String × Client → Option String)
    (wfail : Nat → Bool) :
    ∀ (entries : List (String × Client)) (s : HubState),
      traceOK (rangeEmit s entries msg send wfail).2 := by
  intro entries
  induction entries with
  | nil => intro s; exact traceOK_empty
  | cons e rest ih =>
      intro s
      unfold rangeEmit
      cases send e with
      | none => exact ih s
      | some id =>
          exact traceOK_append (sendMessage_traceOK s id msg wfail)
            (ih (sendMessage s id msg wfail).1)

theorem emit_traceOK (s : HubState) (msg : Message) (mode : Nat)
    (clients : List String) (wfail : Nat → Bool) :
    traceOK (emit s msg mode clients wfail).2 := by
  unfold emit
  split
  · exact rangeEmit_traceOK _ _ _ _ _
  · split
    · exact rangeEmit_traceOK _ _ _ _ _
    · split
      · exact rangeEmit_traceOK _ _ _ _ _
      · exact traceOK_empty

/-! ## Shutdown helper lemmas -/

theorem closeConn_clients (s : HubState) (c : Nat) :
    (closeConn s c).clients = s.clients ∧ (closeConn s c).mirror = s.mirror := by
  unfold closeConn
  split <;> exact ⟨rfl, rfl⟩

theorem closeConn_mem_closed (s : HubState) (c : Nat) :
    c ∈ (closeConn s c).closed := by
  unfold closeConn
  split
  · assumption
  · exact List.mem_cons_self _ _

theorem closeConn_closed_mono {s : HubState} {x : Nat} (h : x ∈ s.closed)
    (c : Nat) : x ∈ (closeConn s c).closed := by
  unfold closeConn
  split
  · exact h
  · exact List.mem_cons_of_mem _ h

theorem foldlClose_state :
    ∀ (l : List (String × Client)) (s : HubState),
      (l.foldl (fun acc e => closeConn acc e.2.conn) s).clients = s.clients ∧
      (l.foldl (fun acc e => closeConn acc e.2.conn) s).mirror = s.mirror := by
  intro l
  induction l with
  | nil => intro s; exact ⟨rfl, rfl⟩
  | cons e rest ih =>
      intro s
      have h1 := closeConn_clients s e.2.conn
      have h2 := ih (closeConn s e.2.conn)
      exact ⟨h2.1.trans h1.1, h2.2.trans h1.2⟩

theorem foldlClose_closed_mono :
    ∀ (l : List (String × Client)) (s : HubState) (x : Nat), x ∈ s.closed →
      x ∈ (l.foldl (fun acc e => closeConn acc e.2.conn) s).closed := by
  intro l
  induction l with
  | nil => intro s x h; exact h
  | cons e rest ih =>
      intro s x h
      exact ih (closeConn s e.2.conn) x (closeConn_closed_mono h e.2.conn)

theorem foldlClose_covers :
    ∀ (l : List (String × Client)) (s : HubState) (e : String × Client), e ∈ l →
      e.2.conn ∈ (l.foldl (fun acc e => closeConn acc e.2.conn) s).closed := by
  intro l
  induction l with
  | nil => intro s e h; cases h
  | cons a rest ih =>
      intro s e h
      rcases List.mem_cons.mp h with rfl | hmem
      · exact foldlClose_closed_mono rest (closeConn s e.2.conn) e.2.conn
          (closeConn_mem_closed s e.2.conn)
      · exact ih (closeConn s a.2.conn) e hmem

/-! ## Claim theorems -/

/-- C1 (counterexample): on a hub with one registered client, Shutdown
does not empty the registry; the Range pass only closes connections and
never evicts the entries, so the claim that the registry is empty after
Shutdown is false. -/
theorem shutdown_registry_not_empty :
    ¬ ((shutdown demoOne).1.clients = []) := by decide

/-- C1 (amended): after Shutdown, every previously tracked session handle
has been closed and, when a mirror is configured, Disconnect has been
called on its underlying resource exactly once (the disconnect counter
rises by exactly one and the records are untouched); however the registry
entries are NOT evicted: the registry is left exactly as it was. -/
theorem shutdown_closes_all_releases_once (s : HubState) :
    (shutdown s).1.clients = s.clients ∧
    (∀ e ∈ s.clients, e.2.conn ∈ (shutdown s).1.closed) ∧
    (s.mirror = none → (shutdown s).1.mirror = none) ∧
    (∀ m, s.mirror = some m →
      (shutdown s).1.mirror = some ⟨m.records, m.disconnects + 1⟩) := by
  have hstate := foldlClose_state s.clients s
  have hcov := foldlClose_covers s.clients s
  simp only [shutdown]
  rw [hstate.2]
  cases hmir : s.mirror with
  | some m0 =>
      refine ⟨hstate.1, hcov, ?_, ?_⟩
      · intro hnone
        cases hnone
      · intro m hm
        injection hm with hm
        subst hm
        rfl
  | none =>
      refine ⟨hstate.1, hcov, ?_, ?_⟩
      · intro _
        exact hstate.2.trans hmir
      · intro m hm
        cases hm

/-- C1 (witness): the amended theorem applied to the concrete one-client
hub with a configured mirror. -/
theorem shutdown_closes_all_releases_once_witness :
    (shutdown demoOne).1.clients = demoOne.clients ∧
    (1 ∈ (shutdown demoOne).1.closed) ∧
    (shutdown demoOne).1.mirror = some ⟨[⟨"a", []⟩], 1⟩ := by
  have h := shutdown_closes_all_releases_once demoOne
  refine ⟨h.1, ?_, ?_⟩
  · exact h.2.1 ("a", ⟨1, "a", ⟨"a", []⟩⟩) (by decide)
  · exact h.2.2.2 ⟨[⟨"a", []⟩], 0⟩ rfl

/-- C2: in in-memory-only mode the DB field is nil, and SearchClient calls
FindOne on it unconditionally, so for every key and value the call ends in
a nil-pointer panic instead of returning an error. -/
theorem searchClient_nil_mirror_panics (clients : List (String × Client))
    (closed : List Nat) (key : String) (v : JValue) :
    searchClient ⟨clients, none, closed⟩ key v = SearchResult.nilPanic := rfl

/-- C5: when no handler is bound to the event name nope, the inbound
message with event nope and payload 1 produces exactly the error reply
whose payload embeds the unmatched event name, and the read loop continues
with the remaining frames. -/
theorem unknown_event_error_reply (events : List (String × Nat))
    (rest : List Frame) (h : ∀ e ∈ events, ¬ e.1 = "nope") :
    dispatchMessage events ⟨"nope", JValue.num 1⟩ =
      DispatchResult.errorReply ⟨"error", JValue.str "Event not found: nope"⟩ ∧
    readLoop events (Frame.msg ⟨"nope", JValue.num 1⟩ :: rest) =
      dispatchMessage events ⟨"nope", JValue.num 1⟩ :: readLoop events rest := by
  constructor
  · unfold dispatchMessage
    have hfind : events.find? (fun e => decide (e.1 = (Message.mk "nope" (JValue.num 1)).event)) = none := by
      rw [List.find?_eq_none]
      intro x hx
      simpa using h x hx
    rw [hfind]
    rfl
  · rfl

/-- C5 (witness): the theorem applied to the empty handler table and an
empty remainder of the stream. -/
theorem unknown_event_error_reply_witness :
    dispatchMessage [] ⟨"nope", JValue.num 1⟩ =
      DispatchResult.errorReply ⟨"error", JValue.str "Event not found: nope"⟩ ∧
    readLoop [] (Frame.msg ⟨"nope", JValue.num 1⟩ :: []) =
      dispatchMessage [] ⟨"nope", JValue.num 1⟩ :: readLoop [] [] :=
  unknown_event_error_reply [] [] (by intro e he; cases he)

/-- C7 (counterexample): emitting to a hub with two registered clients
serializes the message twice, once per target, so the message is not
serialized exactly once for the whole broadcast. -/
theorem emit_serializes_per_target :
    (emit demoTwo ⟨"x", JValue.null⟩ EmitAll [] (fun _ => false)).2.marshals = 2 ∧
    ¬ ((2 : Nat) = 1) := by decide

/-- C7 (amended): in every Emit call the message is serialized once per
delivery attempt (the marshal count equals the number of attempts), and
every per-target write is performed under the bounded 10 second write
deadline. -/
theorem emit_marshals_per_attempt_and_deadline (s : HubState) (msg : Message)
    (mode : Nat) (targets : List String) (wfail : Nat → Bool) :
    (emit s msg mode targets wfail).2.marshals =
      (emit s msg mode targets wfail).2.attempts.length ∧
    (emit s msg mode targets wfail).2.writes.all (fun w => w.2 == 10) = true :=
  emit_traceOK s msg mode targets wfail

/-- C9: for an identity absent from the registry, UpdateMetadata and
RemoveMetadata return with the hub state untouched and an empty trace: no
registry change, no change to any other client, and no attempted mirror
write even when persistence is enabled (and, as in the source, no error is
reported). -/
theorem metadata_ops_noop_for_absent (s : HubState) (clientID key : String)
    (v : JValue) (h : alLoad s.clients clientID = none) :
    updateMetadata s clientID key v = (s, Trace.empty) ∧
    removeMetadata s clientID key = (s, Trace.empty) := by
  unfold updateMetadata removeMetadata
  rw [h]
  exact ⟨rfl, rfl⟩

/-- C9 (witness): the theorem applied to the concrete one-client hub with
a configured mirror and the unregistered identity z. -/
theorem metadata_ops_noop_for_absent_witness :
    alLoad demoOne.clients "z" = none ∧
    (updateMetadata demoOne "z" "k" (JValue.num 1) = (demoOne, Trace.empty) ∧
     removeMetadata demoOne "z" "k" = (demoOne, Trace.empty)) :=
  ⟨by decide, metadata_ops_noop_for_absent demoOne "z" "k" (JValue.num 1) (by decide)⟩

/-- C10: a wire message with no event member decodes to the empty-string
event name; dispatching it invokes the handler bound to the empty string
when one exists and otherwise replies with the error message whose payload
is the error prefix followed by the empty name; the read loop then
continues. -/
theorem missing_event_dispatches_empty_string (d : Option JValue)
    (events : List (String × Nat)) (rest : List Frame) :
    (decodeMessage ⟨none, d⟩).event = "" ∧
    (∀ e, events.find? (fun x => x.1 = "") = some e →
      dispatchMessage events (decodeMessage ⟨none, d⟩) = DispatchResult.invoked e.2) ∧
    (events.find? (fun x => x.1 = "") = none →
      dispatchMessage events (decodeMessage ⟨none, d⟩) =
        DispatchResult.errorReply ⟨"error", JValue.str "Event not found: "⟩) ∧
    readLoop events (Frame.msg (decodeMessage ⟨none, d⟩) :: rest) =
      dispatchMessage events (decodeMessage ⟨none, d⟩) :: readLoop events rest := by
  refine ⟨rfl, ?_, ?_, rfl⟩
  · intro e he
    unfold dispatchMessage
    simp only [decodeMessage, Option.getD_none]
    rw [he]
  · intro hnone
    unfold dispatchMessage
    simp only [decodeMessage, Option.getD_none]
    rw [hnone, String.append_empty]

/-- C10 (witness): the theorem applied with a handler bound to the empty
string (the handler is invoked) and with an empty handler table (the
error reply is produced). -/
theorem missing_event_dispatches_empty_string_witness :
    dispatchMessage [("", 7)] (decodeMessage ⟨none, some (JValue.num 1)⟩) =
      DispatchResult.invoked 7 ∧
    dispatchMessage [] (decodeMessage ⟨none, some (JValue.num 1)⟩) =
      DispatchResult.errorReply ⟨"error", JValue.str "Event not found: "⟩ :=
  ⟨(missing_event_dispatches_empty_string (some (JValue.num 1)) [("", 7)] []).2.1
      ("", 7) (by decide),
   (missing_event_dispatches_empty_string (some (JValue.num 1)) [] []).2.2.1
      (by decide)⟩

/-! ## RemoveClient characterization -/

theorem mirrorDeleteOne_clients (s : HubState) (clientID : String) :
    (mirrorDeleteOne s clientID).1.clients = s.clients ∧
    (mirrorDeleteOne s clientID).1.closed = s.closed := by
  unfold mirrorDeleteOne
  cases s.mirror <;> exact ⟨rfl, rfl⟩

theorem mirrorDeleteOne_mirror (s : HubState) (clientID : String) :
    (mirrorDeleteOne s clientID).1.mirror =
      s.mirror.map (fun m =>
        { m with records := m.records.eraseP (fun r => r.uuid = clientID) }) := by
  unfold mirrorDeleteOne
  cases hm : s.mirror with
  | none => exact hm
  | some m => rfl

theorem removeClient_state (s : HubState) (clientID : String) :
    (removeClient s clientID).1.clients = alDelete s.clients clientID ∧
    (removeClient s clientID).1.mirror =
      s.mirror.map (fun m =>
        { m with records := m.records.eraseP (fun r => r.uuid = clientID) }) := by
  simp only [removeClient]
  cases hl : alLoad s.clients clientID with
  | some c =>
      constructor
      · rw [(mirrorDeleteOne_clients _ _).1]
        exact (closeConn_clients _ _).1
      · rw [mirrorDeleteOne_mirror]
        rw [(closeConn_clients _ _).2]
  | none =>
      constructor
      · rw [(mirrorDeleteOne_clients _ _).1, alLoad_none_delete_eq hl]
      · rw [mirrorDeleteOne_mirror]

theorem hubstate_set_mirror_eq {t : HubState} {o : Option MirrorState}
    (h : t.mirror = o) : { t with mirror := o } = t := by
  cases t
  cases h
  rfl

/-- C6: RemoveClient is idempotent on the hub state: under the reachable
mirror invariant that at most one mirror record exists per identity,
calling it twice leaves exactly the state of calling it once (registry,
mirror and closed set alike); the second call is a no-op on that state. -/
theorem removeClient_idempotent (s : HubState) (clientID : String)
    (h : mirrorUuidUnique s clientID) :
    (removeClient (removeClient s clientID).1 clientID).1 =
      (removeClient s clientID).1 := by
  have hts := removeClient_state s clientID
  set t := (removeClient s clientID).1 with ht
  have hl2 : alLoad t.clients clientID = none := by
    rw [hts.1]
    exact alLoad_alDelete _ _
  simp only [removeClient, hl2]
  cases hm : t.mirror with
  | none =>
      unfold mirrorDeleteOne
      rw [hm]
  | some m1 =>
      have hrec : m1.records.eraseP (fun r => r.uuid = clientID) = m1.records := by
        rw [hts.2] at hm
        rw [Option.map_eq_some'] at hm
        rcases hm with ⟨m, hmir, hfm⟩
        have hcount : m.records.countP (fun r => r.uuid = clientID) ≤ 1 := by
          unfold mirrorUuidUnique at h
          rw [hmir] at h
          exact h
        apply List.eraseP_of_forall_not
        intro a ha
        have hrecs : m1.records = m.records.eraseP (fun r => r.uuid = clientID) := by
          rw [← hfm]
        rw [hrecs] at ha
        have := eraseP_no_match hcount a ha
        simp [this]
      unfold mirrorDeleteOne
      rw [hm]
      simp only [hrec]
      exact congrArg Prod.fst (congrArg (fun o => (o, Trace.empty))
        (hubstate_set_mirror_eq hm)) |>.trans rfl

/-- C6 (witness): the theorem applied to the concrete one-client hub. -/
theorem removeClient_idempotent_witness :
    mirrorUuidUnique demoOne "a" ∧
    (removeClient (removeClient demoOne "a").1 "a").1 =
      (removeClient demoOne "a").1 :=
  ⟨by decide, removeClient_idempotent demoOne "a" (by decide)⟩

/-! ## Emit without write failures -/

theorem trace_append_attempts (a b : Trace) :
    (a.append b).attempts = a.attempts ++ b.attempts := rfl

theorem sendMessage_nofail_state (s : HubState) (clientID : String)
    (msg : Message) : (sendMessage s clientID msg (fun _ => false)).1 = s := by
  unfold sendMessage
  cases alLoad s.clients clientID with
  | none => rfl
  | some c => rfl

theorem sendMessage_nofail_attempts (s : HubState) (clientID : String)
    (msg : Message) :
    (sendMessage s clientID msg (fun _ => false)).2.attempts =
      if (alLoad s.clients clientID).isSome then [clientID] else [] := by
  unfold sendMessage
  cases alLoad s.clients clientID with
  | none => rfl
  | some c => rfl

theorem rangeEmit_nofail (s : HubState) (msg : Message)
    (send : String × Client → Option String) :
    ∀ entries : List (String × Client),
      (rangeEmit s entries msg send (fun _ => false)).1 = s ∧
      (rangeEmit s entries msg send (fun _ => false)).2.attempts =
        entries.filterMap (fun e =>
          match send e with
          | some id => if (alLoad s.clients id).isSome then some id else none
          | none => none) := by
  intro entries
  induction entries with
  | nil => exact ⟨rfl, rfl⟩
  | cons e rest ih =>
      simp only [rangeEmit]
      cases hse : send e with
      | none =>
          rw [List.filterMap_cons]
          simp only [hse]
          exact ih
      | some id =>
          dsimp only
          rw [sendMessage_nofail_state]
          refine ⟨ih.1, ?_⟩
          rw [trace_append_attempts, sendMessage_nofail_attempts, ih.2,
            List.filterMap_cons]
          simp only [hse]
          by_cases hs : (alLoad s.clients id).isSome
          · rw [if_pos hs, if_pos hs]
            rfl
          · rw [if_neg hs, if_neg hs]
            rfl

theorem rangeEmit_nofail_attempts_mem (s : HubState) (msg : Message)
    (send : String × Client → Option String)
    (entries : List (String × Client)) (x : String) :
    x ∈ (rangeEmit s entries msg send (fun _ => false)).2.attempts ↔
      ∃ e ∈ entries, send e = some x ∧ (alLoad s.clients x).isSome := by
  rw [(rangeEmit_nofail s msg send entries).2, List.mem_filterMap]
  constructor
  · rintro ⟨e, he, hfe⟩
    cases hse : send e with
    | none =>
        rw [hse] at hfe
        cases hfe
    | some id =>
        simp only [hse] at hfe
        by_cases hs : (alLoad s.clients id).isSome
        · rw [if_pos hs] at hfe
          injection hfe with hid
          subst hid
          exact ⟨e, he, hse, hs⟩
        · rw [if_neg hs] at hfe
          cases hfe
  · rintro ⟨e, he, hse, hs⟩
    refine ⟨e, he, ?_⟩
    simp only [hse]
    rw [if_pos hs]

/-- C3: with no write failures, the set of identities receiving a delivery
attempt under Emit in ONLY mode is exactly the intersection of the target
list with the registered identities, and in EXCEPT mode exactly the
registered identities minus the target list. -/
theorem emit_only_except_partition (s : HubState) (msg : Message)
    (targets : List String) (x : String) :
    (x ∈ (emit s msg EmitOnly targets (fun _ => false)).2.attempts ↔
      (x ∈ targets ∧ x ∈ s.clients.map Prod.fst)) ∧
    (x ∈ (emit s msg EmitExcept targets (fun _ => false)).2.attempts ↔
      (¬ x ∈ targets ∧ x ∈ s.clients.map Prod.fst)) := by
  have e1 : emit s msg EmitOnly targets (fun _ => false) =
      rangeEmit s s.clients msg
        (fun e => if e.1 ∈ targets then some e.1 else none) (fun _ => false) := by
    simp [emit, EmitOnly, EmitAll, EmitExcept]
  have e2 : emit s msg EmitExcept targets (fun _ => false) =
      rangeEmit s s.clients msg
        (fun e => if e.1 ∈ targets then none else some e.1) (fun _ => false) := by
    simp [emit, EmitExcept, EmitAll, EmitOnly]
  constructor
  · rw [e1, rangeEmit_nofail_attempts_mem]
    constructor
    · rintro ⟨e, he, hse, _⟩
      by_cases ht : e.1 ∈ targets
      · rw [if_pos ht] at hse
        injection hse with hse
        subst hse
        exact ⟨ht, List.mem_map.mpr ⟨e, he, rfl⟩⟩
      · rw [if_neg ht] at hse
        cases hse
    · rintro ⟨hxt, hxk⟩
      rcases List.mem_map.mp hxk with ⟨e, he, hex⟩
      refine ⟨e, he, ?_, ?_⟩
      · have ht : e.1 ∈ targets := by rw [hex]; exact hxt
        rw [if_pos ht, hex]
      · exact alLoad_isSome_iff.mpr hxk
  · rw [e2, rangeEmit_nofail_attempts_mem]
    constructor
    · rintro ⟨e, he, hse, _⟩
      by_cases ht : e.1 ∈ targets
      · rw [if_pos ht] at hse
        cases hse
      · rw [if_neg ht] at hse
        injection hse with hse
        subst hse
        exact ⟨ht, List.mem_map.mpr ⟨e, he, rfl⟩⟩
    · rintro ⟨hxt, hxk⟩
      rcases List.mem_map.mp hxk with ⟨e, he, hex⟩
      refine ⟨e, he, ?_, ?_⟩
      · have ht : ¬ e.1 ∈ targets := by rw [hex]; exact hxt
        rw [if_neg ht, hex]
      · exact alLoad_isSome_iff.mpr hxk

/-! ## Registry-key invariant preservation -/

theorem keysInv_of_clients_sub {s t : HubState}
    (h : ∀ e ∈ t.clients, e ∈ s.clients) (hs : keysInv s) : keysInv t :=
  fun e he => hs e (h e he)

theorem alLoad_entryOK {s : HubState} {clientID : String} {c : Client}
    (hs : keysInv s) (hl : alLoad s.clients clientID = some c) :
    c.uuid = clientID ∧ c.metadata.uuid = clientID := by
  rcases alLoad_some_exists hl with ⟨e, he, hk, hv⟩
  have := hs e he
  subst hk hv
  exact this

theorem addClient_keysInv (s : HubState) (conn : Nat) (clientID : String)
    (hs : keysInv s) : keysInv (addClient s conn clientID).1 := by
  have hcl : (addClient s conn clientID).1.clients =
      alStore s.clients clientID ⟨conn, clientID, ⟨clientID, []⟩⟩ := by
    obtain ⟨cl, mir, clo⟩ := s
    cases mir <;> rfl
  intro e he
  rw [hcl] at he
  rcases List.mem_cons.mp he with rfl | hmem
  · exact ⟨rfl, rfl⟩
  · exact hs e (List.mem_of_mem_filter hmem)

theorem removeClient_keysInv (s : HubState) (clientID : String)
    (hs : keysInv s) : keysInv (removeClient s clientID).1 := by
  apply keysInv_of_clients_sub _ hs
  intro e he
  rw [(removeClient_state s clientID).1] at he
  exact List.mem_of_mem_filter he

theorem updateMetadata_keysInv (s : HubState) (clientID key : String)
    (v : JValue) (hs : keysInv s) : keysInv (updateMetadata s clientID key v).1 := by
  unfold updateMetadata
  cases hl : alLoad s.clients clientID with
  | none => exact hs
  | some c =>
      have hc := alLoad_entryOK hs hl
      dsimp only
      have hcs : ∀ e ∈ updateFirst (fun e => e.1 = clientID)
          (fun e => (e.1, { c with metadata :=
            { c.metadata with data := alStore c.metadata.data key v } })) s.clients,
          e.2.uuid = e.1 ∧ e.2.metadata.uuid = e.1 := by
        intro e he
        rcases updateFirst_mem he with hmem | ⟨y, hy, hpy, hxy⟩
        · exact hs e hmem
        · have hy1 : y.1 = clientID := by simpa using hpy
          subst hxy
          exact ⟨by rw [hc.1, hy1], by rw [hc.2, hy1]⟩
      cases hm : s.mirror with
      | some m => exact hcs
      | none => exact hcs

theorem removeMetadata_keysInv (s : HubState) (clientID key : String)
    (hs : keysInv s) : keysInv (removeMetadata s clientID key).1 := by
  unfold removeMetadata
  cases hl : alLoad s.clients clientID with
  | none => exact hs
  | some c =>
      have hc := alLoad_entryOK hs hl
      dsimp only
      have hcs : ∀ e ∈ updateFirst (fun e => e.1 = clientID)
          (fun e => (e.1, { c with metadata :=
            { c.metadata with data := alDelete c.metadata.data key } })) s.clients,
          e.2.uuid = e.1 ∧ e.2.metadata.uuid = e.1 := by
        intro e he
        rcases updateFirst_mem he with hmem | ⟨y, hy, hpy, hxy⟩
        · exact hs e hmem
        · have hy1 : y.1 = clientID := by simpa using hpy
          subst hxy
          exact ⟨by rw [hc.1, hy1], by rw [hc.2, hy1]⟩
      cases hm : s.mirror with
      | some m => exact hcs
      | none => exact hcs

theorem sendMessage_keysInv (s : HubState) (clientID : String) (msg : Message)
    (wfail : Nat → Bool) (hs : keysInv s) :
    keysInv (sendMessage s clientID msg wfail).1 := by
  unfold sendMessage
  cases hl : alLoad s.clients clientID with
  | none => exact hs
  | some c =>
      dsimp only
      by_cases hw : wfail c.conn
      · rw [if_pos hw]
        exact removeClient_keysInv s clientID hs
      · rw [if_neg hw]
        exact hs

theorem rangeEmit_keysInv (msg : Message) (send : String × Client → Option String)
    (wfail : Nat → Bool) :
    ∀ (entries : List (String × Client)) (s : HubState), keysInv s →
      keysInv (rangeEmit s entries msg send wfail).1 := by
  intro entries
  induction entries with
  | nil => intro s hs; exact hs
  | cons e rest ih =>
      intro s hs
      simp only [rangeEmit]
      cases send e with
      | none => exact ih s hs
      | some id =>
          dsimp only
          exact ih _ (sendMessage_keysInv s id msg wfail hs)

theorem emit_keysInv (s : HubState) (msg : Message) (mode : Nat)
    (targets : List String) (wfail : Nat → Bool) (hs : keysInv s) :
    keysInv (emit s msg mode targets wfail).1 := by
  unfold emit
  split
  · exact rangeEmit_keysInv _ _ _ _ _ hs
  · split
    · exact rangeEmit_keysInv _ _ _ _ _ hs
    · split
      · exact rangeEmit_keysInv _ _ _ _ _ hs
      · exact hs

theorem shutdown_clients_eq (s : HubState) :
    (shutdown s).1.clients = s.clients := by
  have hstate := foldlClose_state s.clients s
  simp only [shutdown]
  rw [hstate.2]
  cases hm : s.mirror with
  | some m => exact hstate.1
  | none => exact hstate.1

/-- C8: every registry entry stores a client whose UUID field and metadata
UUID equal the key it is stored under, and each hub operation preserves
this invariant: AddClient, RemoveClient, UpdateMetadata, RemoveMetadata,
Emit in any mode and with any write failures, and Shutdown. -/
theorem registry_key_invariant_preserved (s : HubState) (conn : Nat)
    (clientID key : String) (v : JValue) (msg : Message) (mode : Nat)
    (targets : List String) (wfail : Nat → Bool) (hinv : keysInv s) :
    keysInv (addClient s conn clientID).1 ∧
    keysInv (removeClient s clientID).1 ∧
    keysInv (updateMetadata s clientID key v).1 ∧
    keysInv (removeMetadata s clientID key).1 ∧
    keysInv (emit s msg mode targets wfail).1 ∧
    keysInv (shutdown s).1 :=
  ⟨addClient_keysInv s conn clientID hinv,
   removeClient_keysInv s clientID hinv,
   updateMetadata_keysInv s clientID key v hinv,
   removeMetadata_keysInv s clientID key hinv,
   emit_keysInv s msg mode targets wfail hinv,
   keysInv_of_clients_sub (by rw [shutdown_clients_eq]; exact fun e he => he) hinv⟩

/-- C8 (witness): the invariant theorem applied to the concrete one-client
hub. -/
theorem registry_key_invariant_preserved_witness :
    keysInv demoOne ∧
    (keysInv (addClient demoOne 2 "b").1 ∧
     keysInv (removeClient demoOne "b").1 ∧
     keysInv (updateMetadata demoOne "b" "k" (JValue.num 1)).1 ∧
     keysInv (removeMetadata demoOne "b" "k").1 ∧
     keysInv (emit demoOne ⟨"x", JValue.null⟩ 0 [] (fun _ => false)).1 ∧
     keysInv (shutdown demoOne).1) :=
  ⟨by decide,
   registry_key_invariant_preserved demoOne 2 "b" "k" (JValue.num 1)
     ⟨"x", JValue.null⟩ 0 [] (fun _ => false) (by decide)⟩

/-! ## Emit with a single failing target -/

theorem alLoad_alDelete_ne {α : Type} (l : List (String × α)) {k b : String}
    (h : ¬ k = b) : alLoad (alDelete l b) k = alLoad l k := by
  induction l with
  | nil => rfl
  | cons x xs ih =>
      by_cases hxb : x.1 = b
      · have hxk : ¬ x.1 = k := by
          intro hk
          exact h (hk ▸ hxb)
        unfold alDelete at ih ⊢
        rw [List.filter_cons_of_neg (by simpa using hxb)]
        unfold alLoad at ih ⊢
        rw [List.find?_cons_of_neg _ (by simpa using hxk)]
        exact ih
      · unfold alDelete at ih ⊢
        rw [List.filter_cons_of_pos (by simpa using hxb)]
        unfold alLoad at ih ⊢
        by_cases hxk : x.1 = k
        · rw [List.find?_cons_of_pos _ (by simpa using hxk),
            List.find?_cons_of_pos _ (by simpa using hxk)]
        · rw [List.find?_cons_of_neg _ (by simpa using hxk),
            List.find?_cons_of_neg _ (by simpa using hxk)]
          exact ih

theorem sendMessage_spec_absent (s : HubState) (clientID : String)
    (msg : Message) (wfail : Nat → Bool)
    (hl : alLoad s.clients clientID = none) :
    sendMessage s clientID msg wfail = (s, Trace.empty) := by
  unfold sendMessage
  rw [hl]

theorem sendMessage_spec_ok (s : HubState) (clientID : String) (msg : Message)
    (wfail : Nat → Bool) (c : Client) (hl : alLoad s.clients clientID = some c)
    (hw : wfail c.conn = false) :
    sendMessage s clientID msg wfail = (s, ⟨1, [(c.conn, 10)], [clientID], []⟩) := by
  unfold sendMessage
  rw [hl]
  dsimp only
  rw [hw]
  rfl

theorem sendMessage_spec_fail (s : HubState) (clientID : String) (msg : Message)
    (wfail : Nat → Bool) (c : Client) (hl : alLoad s.clients clientID = some c)
    (hw : wfail c.conn = true) :
    sendMessage s clientID msg wfail =
      ((removeClient s clientID).1,
       Trace.append ⟨1, [(c.conn, 10)], [clientID], []⟩ (removeClient s clientID).2) := by
  unfold sendMessage
  rw [hl]
  dsimp only
  rw [hw]
  rfl

theorem rangeEmit_after_evict (s : HubState) (msg : Message) (b : String)
    (wfail : Nat → Bool) (hinv : keysInv s)
    (hnd : (s.clients.map Prod.fst).Nodup)
    (hf : ∀ e ∈ s.clients, (wfail e.2.conn = true ↔ e.1 = b)) :
    ∀ entries : List (String × Client), (∀ e ∈ entries, e ∈ s.clients) →
      (rangeEmit (removeClient s b).1 entries msg (fun e => some e.2.uuid) wfail).1 =
        (removeClient s b).1 ∧
      ∀ e ∈ entries, ¬ e.1 = b →
        e.1 ∈ (rangeEmit (removeClient s b).1 entries msg
          (fun e => some e.2.uuid) wfail).2.attempts := by
  intro entries
  induction entries with
  | nil =>
      exact fun _ => ⟨rfl, by intro e he; cases he⟩
  | cons e rest ih =>
      intro hsub
      have hesub : e ∈ s.clients := hsub e (List.mem_cons_self e rest)
      have hrest : ∀ x ∈ rest, x ∈ s.clients :=
        fun x hx => hsub x (List.mem_cons_of_mem e hx)
      have heuu : e.2.uuid = e.1 := (hinv e hesub).1
      simp only [rangeEmit]
      rw [heuu]
      by_cases heb : e.1 = b
      · have hl : alLoad (removeClient s b).1.clients e.1 = none := by
          rw [(removeClient_state s b).1, heb]
          exact alLoad_alDelete _ _
        rw [sendMessage_spec_absent _ _ _ _ hl]
        refine ⟨(ih hrest).1, ?_⟩
        intro x hx hxb
        rcases List.mem_cons.mp hx with rfl | hxr
        · exact absurd heb hxb
        · rw [trace_append_attempts]
          refine List.mem_append.mpr (Or.inr ?_)
          exact (ih hrest).2 x hxr hxb
      · have hl : alLoad (removeClient s b).1.clients e.1 = some e.2 := by
          rw [(removeClient_state s b).1, alLoad_alDelete_ne _ heb]
          exact alLoad_of_mem_nodup hnd hesub
        have hw : wfail e.2.conn = false := by
          cases hwc : wfail e.2.conn with
          | true => exact absurd ((hf e hesub).mp hwc) heb
          | false => rfl
        rw [sendMessage_spec_ok _ _ _ _ e.2 hl hw]
        refine ⟨(ih hrest).1, ?_⟩
        intro x hx hxb
        rw [trace_append_attempts]
        rcases List.mem_cons.mp hx with rfl | hxr
        · exact List.mem_append.mpr (Or.inl (List.mem_cons_self _ _))
        · exact List.mem_append.mpr (Or.inr ((ih hrest).2 x hxr hxb))

theorem rangeEmit_fail_run (s : HubState) (msg : Message) (b : String)
    (wfail : Nat → Bool) (hinv : keysInv s)
    (hnd : (s.clients.map Prod.fst).Nodup)
    (hf : ∀ e ∈ s.clients, (wfail e.2.conn = true ↔ e.1 = b)) :
    ∀ entries : List (String × Client), (∀ e ∈ entries, e ∈ s.clients) →
      (entries.map Prod.fst).Nodup →
      ((b ∈ entries.map Prod.fst →
         (rangeEmit s entries msg (fun e => some e.2.uuid) wfail).1 =
           (removeClient s b).1) ∧
       (¬ b ∈ entries.map Prod.fst →
         (rangeEmit s entries msg (fun e => some e.2.uuid) wfail).1 = s) ∧
       ∀ e ∈ entries,
         e.1 ∈ (rangeEmit s entries msg (fun e => some e.2.uuid) wfail).2.attempts) := by
  intro entries
  induction entries with
  | nil =>
      exact fun _ _ =>
        ⟨(by intro h; cases h), fun _ => rfl, (by intro e he; cases he)⟩
  | cons e rest ih =>
      intro hsub hnd'
      have hesub : e ∈ s.clients := hsub e (List.mem_cons_self e rest)
      have hrest : ∀ x ∈ rest, x ∈ s.clients :=
        fun x hx => hsub x (List.mem_cons_of_mem e hx)
      rw [List.map_cons] at hnd'
      have hnd2 := List.nodup_cons.mp hnd'
      have heuu : e.2.uuid = e.1 := (hinv e hesub).1
      have hl : alLoad s.clients e.1 = some e.2 := alLoad_of_mem_nodup hnd hesub
      simp only [rangeEmit]
      rw [heuu]
      by_cases heb : e.1 = b
      · have hw : wfail e.2.conn = true := (hf e hesub).mpr heb
        rw [sendMessage_spec_fail _ _ _ _ e.2 hl hw, heb]
        have hafter := rangeEmit_after_evict s msg b wfail hinv hnd hf rest hrest
        refine ⟨fun _ => hafter.1, ?_, ?_⟩
        · intro hnb
          apply absurd _ hnb
          rw [List.map_cons, ← heb]
          exact List.mem_cons_self e.1 _
        · intro x hx
          rw [trace_append_attempts, trace_append_attempts]
          rcases List.mem_cons.mp hx with rfl | hxr
          · exact List.mem_append.mpr
              (Or.inl (List.mem_append.mpr (Or.inl (by
                rw [heb]
                exact List.mem_cons_self _ _))))
          · have hxb : ¬ x.1 = b := by
              intro hxb
              apply hnd2.1
              have hx1 : x.1 ∈ rest.map Prod.fst := List.mem_map.mpr ⟨x, hxr, rfl⟩
              rw [heb, ← hxb]
              exact hx1
            exact List.mem_append.mpr (Or.inr (hafter.2 x hxr hxb))
      · have hw : wfail e.2.conn = false := by
          cases hwc : wfail e.2.conn with
          | true => exact absurd ((hf e hesub).mp hwc) heb
          | false => rfl
        rw [sendMessage_spec_ok _ _ _ _ e.2 hl hw]
        have hih := ih hrest hnd2.2
        refine ⟨?_, ?_, ?_⟩
        · intro hb
          rcases List.mem_cons.mp hb with hbe | hbr
          · exact absurd hbe.symm heb
          · exact hih.1 hbr
        · intro hnb
          have : ¬ b ∈ rest.map Prod.fst :=
            fun hbr => hnb (List.mem_cons_of_mem _ hbr)
          exact hih.2.1 this
        · intro x hx
          rw [trace_append_attempts]
          rcases List.mem_cons.mp hx with rfl | hxr
          · exact List.mem_append.mpr (Or.inl (List.mem_cons_self _ _))
          · exact List.mem_append.mpr (Or.inr (hih.2.2 x hxr))

/-- C4: during an Emit broadcast in ALL mode, if exactly the target with
identity b suffers a write failure, then b is evicted from the registry
and from the configured mirror before the call returns, while every
registered identity (b itself and every other target) still receives its
delivery attempt; one failure never aborts delivery to the rest. -/
theorem emit_failure_evicts_and_isolates (s : HubState) (msg : Message)
    (b : String) (targets : List String) (wfail : Nat → Bool)
    (hinv : keysInv s) (hnd : (s.clients.map Prod.fst).Nodup)
    (hb : b ∈ s.clients.map Prod.fst)
    (hf : ∀ e ∈ s.clients, (wfail e.2.conn = true ↔ e.1 = b))
    (hmu : mirrorUuidUnique s b) :
    ¬ b ∈ (emit s msg EmitAll targets wfail).1.clients.map Prod.fst ∧
    (∀ k ∈ s.clients.map Prod.fst,
      k ∈ (emit s msg EmitAll targets wfail).2.attempts) ∧
    (∀ m, (emit s msg EmitAll targets wfail).1.mirror = some m →
      ∀ r ∈ m.records, ¬ r.uuid = b) := by
  have heq : emit s msg EmitAll targets wfail =
      rangeEmit s s.clients msg (fun e => some e.2.uuid) wfail := by
    simp [emit, EmitAll]
  have hrun := rangeEmit_fail_run s msg b wfail hinv hnd hf s.clients
    (fun e he => he) hnd
  have hstate : (rangeEmit s s.clients msg (fun e => some e.2.uuid) wfail).1 =
      (removeClient s b).1 := hrun.1 hb
  refine ⟨?_, ?_, ?_⟩
  · rw [heq, hstate, (removeClient_state s b).1]
    intro hmem
    rcases List.mem_map.mp hmem with ⟨e, he, hex⟩
    have hkeep := (List.mem_filter.mp he).2
    rw [hex] at hkeep
    simp at hkeep
  · intro k hk
    rw [heq]
    rcases List.mem_map.mp hk with ⟨e, he, hek⟩
    rw [← hek]
    exact hrun.2.2 e he
  · intro m hmm r hr
    rw [heq, hstate, (removeClient_state s b).2, Option.map_eq_some'] at hmm
    rcases hmm with ⟨m0, hm0, hfm⟩
    have hcount : m0.records.countP (fun r => r.uuid = b) ≤ 1 := by
      unfold mirrorUuidUnique at hmu
      rw [hm0] at hmu
      exact hmu
    have hrecs : m.records = m0.records.eraseP (fun r => r.uuid = b) := by
      rw [← hfm]
    rw [hrecs] at hr
    have := eraseP_no_match hcount r hr
    simpa using this

/-- C4 (witness): the theorem applied to the concrete two-client hub where
only the connection of client a fails. -/
theorem emit_failure_evicts_and_isolates_witness :
    (keysInv demoTwo ∧ (demoTwo.clients.map Prod.fst).Nodup ∧
     "a" ∈ demoTwo.clients.map Prod.fst ∧
     (∀ e ∈ demoTwo.clients,
       (((fun c => c == 1) : Nat → Bool) e.2.conn = true ↔ e.1 = "a")) ∧
     mirrorUuidUnique demoTwo "a") ∧
    (¬ "a" ∈ (emit demoTwo ⟨"x", JValue.null⟩ EmitAll []
        (fun c => c == 1)).1.clients.map Prod.fst ∧
     (∀ k ∈ demoTwo.clients.map Prod.fst,
       k ∈ (emit demoTwo ⟨"x", JValue.null⟩ EmitAll [] (fun c => c == 1)).2.attempts) ∧
     (∀ m, (emit demoTwo ⟨"x", JValue.null⟩ EmitAll []
         (fun c => c == 1)).1.mirror = some m →
       ∀ r ∈ m.records, ¬ r.uuid = "a")) :=
  ⟨⟨by decide, by decide, by decide, by decide, by decide⟩,
   emit_failure_evicts_and_isolates demoTwo ⟨"x", JValue.null⟩ "a" []
     (fun c => c == 1) (by decide) (by decide) (by decide) (by decide) (by decide)⟩
